import Mathlib

/-!
Formal model of the tfdeps Terraform-module dependency analyzer.

Text is modelled as `List Char`.  The regex-based scanners of the source are
embedded as executable character-list functions with the same matching
semantics (leftmost, non-overlapping, resuming after each match).
-/

/-- Convert a string literal to the character-list representation used
throughout the model. -/
def chars (s : String) : List Char := s.toList

/-- Boolean prefix test on character lists. -/
def isPre : List Char → List Char → Bool
  | [], _ => true
  | _ :: _, [] => false
  | a :: as, b :: bs => a = b && isPre as bs

/-- Python's `sub in s` substring test (`containsSub pat l` is true when `pat`
occurs contiguously inside `l`; the empty pattern occurs everywhere). -/
def containsSub (pat : List Char) : List Char → Bool
  | [] => isPre pat []
  | c :: cs => isPre pat (c :: cs) || containsSub pat cs

/-- Python's `s.split(pat)[0]`: the part of `l` before the first occurrence of
`pat` (the whole list when `pat` does not occur). -/
def beforeFirst (pat : List Char) : List Char → List Char
  | [] => []
  | c :: cs => if isPre pat (c :: cs) then [] else c :: beforeFirst pat cs

/-- Boolean suffix test, modelling Python's `str.endswith`. -/
def endsWith (suf l : List Char) : Bool := isPre suf.reverse l.reverse

/-- Python's `str.startswith('.')`. -/
def startsDot : List Char → Bool
  | [] => false
  | c :: _ => c = '.'

/-- Regex `\s` on ASCII input: space, tab, newline, carriage return, form
feed, vertical tab. -/
def isSpace (c : Char) : Bool :=
  c = ' ' || c = '\t' || c = '\n' || c = '\x0d' || c = '\x0c' || c = '\x0b'

/-! ### Comment stripping (`remove_comments`)

`re.sub(r'/\*.*?\*/', '', content, flags=re.DOTALL)` removes every block
comment from the first `/*` to the nearest following `*/`; an unmatched
trailing `/*` is left in place.  `sbAux` is a single-pass automaton whose
`pending` argument, while inside a comment, holds the consumed comment text in
reverse so that an unclosed comment can be restored verbatim at end of input.
-/

def sbAux : Option (List Char) → List Char → List Char
  | none, [] => []
  | some p, [] => p.reverse
  | none, [c] => [c]
  | some p, [c] => (c :: p).reverse
  | none, c :: d :: rest =>
    if c = '/' ∧ d = '*' then sbAux (some ['*', '/']) rest
    else c :: sbAux none (d :: rest)
  | some p, c :: d :: rest =>
    if c = '*' ∧ d = '/' then sbAux none rest
    else sbAux (some (c :: p)) (d :: rest)

/-- Removal of all `/* ... */` block comments (non-greedy, DOTALL), as done by
the first substitution in `remove_comments`. -/
def stripBlockComments (l : List Char) : List Char := sbAux none l

/-- One-pass automaton for `re.sub(r'MARKER.*?$', '', content, re.MULTILINE)`:
when `inComment` is set, characters are dropped up to (not including) the next
newline. -/
def slcAux (marker : List Char) (inComment : Bool) : List Char → List Char
  | [] => []
  | c :: cs =>
    if inComment then
      if c = '\n' then c :: slcAux marker false cs
      else slcAux marker true cs
    else if isPre marker (c :: cs) then slcAux marker true cs
    else c :: slcAux marker false cs

/-- `remove_comments`: strip block comments, then `//` line comments, then `#`
line comments, in the source's order. -/
def remove_comments (content : List Char) : List Char :=
  slcAux ['#'] false (slcAux ['/', '/'] false (stripBlockComments content))

/-! ### Regex matchers

Each matcher tries its pattern at the head of the input and returns the
captured group together with the input remaining after the whole match.
-/

/-- Match a literal, returning the rest of the input. -/
def matchLit (lit l : List Char) : Option (List Char) :=
  if isPre lit l then some (l.drop lit.length) else none

/-- Regex `\s*`: skip any run of whitespace. -/
def dropSpaces (l : List Char) : List Char := l.dropWhile isSpace

/-- Regex `\s+`: require at least one whitespace character, then skip the
rest of the run. -/
def dropSpaces1 : List Char → Option (List Char)
  | [] => none
  | c :: cs => if isSpace c then some (dropSpaces cs) else none

/-- Match a single required character. -/
def matchChar (ch : Char) : List Char → Option (List Char)
  | [] => none
  | c :: cs => if c = ch then some cs else none

/-- Regex `"([^"]+)"`: an opening quote, a nonempty capture of non-quote
characters, a closing quote. -/
def matchQuoted : List Char → Option (List Char × List Char)
  | '"' :: rest =>
    match rest.takeWhile (fun c => decide (c ≠ '"')) with
    | [] => none
    | cap0 :: caps =>
      match rest.dropWhile (fun c => decide (c ≠ '"')) with
      | '"' :: rest2 => some (cap0 :: caps, rest2)
      | _ => none
  | _ => none

/-- Regex `module\s+"([^"]+)"\s*\{` at the head of the input. -/
def matchModuleRef (l : List Char) : Option (List Char × List Char) :=
  match matchLit (chars "module") l with
  | none => none
  | some l1 =>
    match dropSpaces1 l1 with
    | none => none
    | some l2 =>
      match matchQuoted l2 with
      | none => none
      | some (cap, l3) =>
        match matchChar '\x7b' (dropSpaces l3) with
        | none => none
        | some l4 => some (cap, l4)

/-- Regex `data\s+"[^"]+"\s+"([^"]+)"\s*\{` at the head of the input; the
second quoted string (the data source's local name) is the capture. -/
def matchDataBlock (l : List Char) : Option (List Char × List Char) :=
  match matchLit (chars "data") l with
  | none => none
  | some l1 =>
    match dropSpaces1 l1 with
    | none => none
    | some l2 =>
      match matchQuoted l2 with
      | none => none
      | some (_ty, l3) =>
        match dropSpaces1 l3 with
        | none => none
        | some l4 =>
          match matchQuoted l4 with
          | none => none
          | some (cap, l5) =>
            match matchChar '\x7b' (dropSpaces l5) with
            | none => none
            | some l6 => some (cap, l6)

/-- Regex `alias\s*=\s*"([^"]+)"` at the head of the input. -/
def matchAliasKV (l : List Char) : Option (List Char × List Char) :=
  match matchLit (chars "alias") l with
  | none => none
  | some l1 =>
    match matchChar '=' (dropSpaces l1) with
    | none => none
    | some l2 =>
      match matchQuoted (dropSpaces l2) with
      | none => none
      | some (cap, l3) => some (cap, l3)

/-- `re.findall` driver: try the matcher at every position, left to right;
on a match record the capture and resume after the match (non-overlapping).
The fuel argument (instantiated with the input length) only bounds the
recursion; every matcher consumes at least one character per match. -/
def findAllAux (m : List Char → Option (List Char × List Char)) :
    Nat → List Char → List (List Char)
  | 0, _ => []
  | _ + 1, [] => []
  | fuel + 1, c :: cs =>
    match m (c :: cs) with
    | some (cap, rest) => cap :: findAllAux m fuel rest
    | none => findAllAux m fuel cs

/-- All captures of a pattern over an input, `re.findall` style. -/
def findAll (m : List Char → Option (List Char × List Char))
    (l : List Char) : List (List Char) :=
  findAllAux m l.length l

/-! ### Implicit-dependency inference -/

/-- The naming-pattern inference applied to a data block's local name in
`extract_implicit_dependencies` (the `module_name` computation). -/
def infer_module_name (data_name : List Char) : Option (List Char) :=
  if containsSub (chars "_vpc") data_name then
    if containsSub (chars "inner") data_name then some (chars "inner_vpc")
    else if containsSub (chars "outer") data_name then some (chars "outer_vpc")
    else
      let pre := beforeFirst (chars "_vpc") data_name
      if pre = [] then none else some (pre ++ chars "_vpc")
  else if containsSub (chars "inner") data_name then some (chars "inner_vpc")
  else if containsSub (chars "outer") data_name then some (chars "outer_vpc")
  else none

/-! ### Lexicographic order on character lists

Python's `sorted` on strings compares lexicographically by code point; `lexLe`
is that order on `List Char`.
-/

/-- Lexicographic (code-point) order on character lists, as used by Python's
`sorted` on strings. -/
def lexLe : List Char → List Char → Bool
  | [], _ => true
  | _ :: _, [] => false
  | a :: as, b :: bs =>
    if a < b then true
    else if b < a then false
    else lexLe as bs

/-- The sorting relation corresponding to `lexLe`. -/
def lexR (a b : List Char) : Prop := lexLe a b = true

instance : DecidableRel lexR := fun a b =>
  inferInstanceAs (Decidable (lexLe a b = true))

theorem lexLe_total : ∀ a b : List Char, lexLe a b = true ∨ lexLe b a = true
  | [], _ => Or.inl rfl
  | _ :: _, [] => Or.inr rfl
  | a :: as, b :: bs => by
    rcases lt_trichotomy a b with hab | hab | hab
    · exact Or.inl (by simp [lexLe, hab])
    · subst hab
      rcases lexLe_total as bs with ih | ih
      · exact Or.inl (by simp [lexLe, lt_irrefl, ih])
      · exact Or.inr (by simp [lexLe, lt_irrefl, ih])
    · exact Or.inr (by simp [lexLe, hab])

theorem lexLe_antisymm : ∀ a b : List Char,
    lexLe a b = true → lexLe b a = true → a = b
  | [], [], _, _ => rfl
  | [], _ :: _, _, h => by simp [lexLe] at h
  | _ :: _, [], h, _ => by simp [lexLe] at h
  | a :: as, b :: bs, h1, h2 => by
    rcases lt_trichotomy a b with hab | hab | hab
    · simp [lexLe, hab, asymm hab] at h2
    · subst hab
      simp only [lexLe, lt_irrefl, if_false] at h1 h2
      exact congrArg (a :: ·) (lexLe_antisymm as bs h1 h2)
    · simp [lexLe, hab, asymm hab] at h1

theorem lexLe_trans : ∀ a b c : List Char,
    lexLe a b = true → lexLe b c = true → lexLe a c = true
  | [], _, _, _, _ => rfl
  | _ :: _, [], _, h, _ => by simp [lexLe] at h
  | _ :: _, _ :: _, [], _, h => by simp [lexLe] at h
  | a :: as, b :: bs, c :: cs, h1, h2 => by
    by_cases hab : a < b
    · by_cases hbc : b < c
      · simp [lexLe, lt_trans hab hbc]
      · by_cases hcb : c < b
        · simp [lexLe, hbc, hcb] at h2
        · have hbc2 : b = c := le_antisymm (not_lt.mp hcb) (not_lt.mp hbc)
          subst hbc2
          simp [lexLe, hab]
    · by_cases hba : b < a
      · simp [lexLe, hab, hba] at h1
      · have hab2 : a = b := le_antisymm (not_lt.mp hba) (not_lt.mp hab)
        subst hab2
        simp only [lexLe, lt_irrefl, if_false] at h1
        by_cases hac : a < c
        · simp [lexLe, hac]
        · by_cases hca : c < a
          · simp [lexLe, hac, hca] at h2
          · have hac2 : a = c := le_antisymm (not_lt.mp hca) (not_lt.mp hac)
            subst hac2
            simp only [lexLe, lt_irrefl, if_false] at h2 ⊢
            exact lexLe_trans as bs cs h1 h2

instance : IsTotal (List Char) lexR := ⟨lexLe_total⟩

instance : IsTrans (List Char) lexR := ⟨lexLe_trans⟩

instance : IsAntisymm (List Char) lexR := ⟨lexLe_antisymm⟩

/-- Python's `sorted` over a list of strings. -/
def sortStrs (l : List (List Char)) : List (List Char) :=
  List.insertionSort lexR l

/-- Python's `sorted` over a set of strings: the set is modelled as a list up
to membership, so duplicates are discarded before sorting. -/
def sortedSet (l : List (List Char)) : List (List Char) :=
  sortStrs l.dedup

/-- Python's `', '.join` / `'\n'.join`. -/
def joinWith (sep : List Char) : List (List Char) → List Char
  | [] => []
  | [x] => x
  | x :: xs => x ++ sep ++ joinWith sep xs

/-- Concatenation of the images of a list-valued function (used to collect
per-file extraction results). -/
def catMap (g : α → List β) : List α → List β
  | [] => []
  | x :: xs => g x ++ catMap g xs

/-! ### Data model

A module directory is its list of (filename, content) pairs; a root directory
is a list of entries that are either subdirectories (potential modules) or
plain files.
-/

/-- Contents of one module directory: its files, as (name, content) pairs. -/
structure ModuleDirX where
  files : List (List Char × List Char)
deriving DecidableEq

/-- One entry of the root directory: a name, whether it is a subdirectory,
and (when it is) its contents. -/
structure Entry where
  name : List Char
  isDir : Bool
  dir : ModuleDirX
deriving DecidableEq

/-- A scanned module: its directory name and its directory contents. -/
structure ModuleM where
  name : List Char
  dir : ModuleDirX
deriving DecidableEq

/-- The aggregation state of a run (`self.all_modules`, `self.dependencies`,
`self.provider_aliases`); Python's sets and dicts are modelled as lists and
association lists read up to membership. -/
structure TFState where
  all_modules : List (List Char)
  dependencies : List (List Char × List (List Char))
  provider_aliases : List (List Char × List (List Char))
deriving DecidableEq

/-- Map lookup with the empty set as default (`dict.get(k, [])` /
`defaultdict(set)`). -/
def lookupSet (k : List Char) : List (List Char × List (List Char)) → List (List Char)
  | [] => []
  | (k2, v) :: rest => if k2 = k then v else lookupSet k rest

/-- The keys of an association list. -/
def keysOf (m : List (List Char × List (List Char))) : List (List Char) :=
  m.map Prod.fst

/-! ### Per-module extraction -/

/-- The `.tf` files of a module directory (`os.listdir` + `endswith('.tf')`). -/
def tfFilesOf (d : ModuleDirX) : List (List Char × List Char) :=
  d.files.filter fun f => endsWith (chars ".tf") f.1

/-- Content of the named file of a module directory, when present. -/
def fileContent (d : ModuleDirX) (fname : List Char) : Option (List Char) :=
  (d.files.find? fun f => decide (f.1 = fname)).map Prod.snd

/-- `extract_provider_aliases`: read `provider.tf` and `versions.tf` if
present, strip comments, and collect every `alias = "..."` capture. -/
def extract_provider_aliases (d : ModuleDirX) : List (List Char) :=
  catMap (fun content => findAll matchAliasKV (remove_comments content))
    ([chars "provider.tf", chars "versions.tf"].filterMap (fileContent d))

/-- `extract_explicit_dependencies`: over every `.tf` file, strip comments and
collect every `module "..." {` capture. -/
def extract_explicit_dependencies (d : ModuleDirX) : List (List Char) :=
  catMap (fun f => findAll matchModuleRef (remove_comments f.2)) (tfFilesOf d)

/-- `extract_implicit_dependencies`: over every `.tf` file, strip comments,
collect every data block's local name and keep the successful inferences. -/
def extract_implicit_dependencies (d : ModuleDirX) : List (List Char) :=
  catMap (fun f => (findAll matchDataBlock (remove_comments f.2)).filterMap infer_module_name)
    (tfFilesOf d)

/-- The dependency set stored for one module by `analyze_module`: the union of
explicit and implicit findings with the module's own name discarded. -/
def analyze_module_deps (m : ModuleM) : List (List Char) :=
  ((extract_explicit_dependencies m.dir) ++ (extract_implicit_dependencies m.dir)).filter
    fun d => decide (d ≠ m.name)

/-! ### Aggregation -/

/-- `self.provider_aliases[alias].add(module_name)` on an association list. -/
def addAlias (a m : List Char) : List (List Char × List (List Char)) →
    List (List Char × List (List Char))
  | [] => [(a, [m])]
  | (k, v) :: rest =>
    if k = a then (k, v ++ [m]) :: rest else (k, v) :: addAlias a m rest

/-- The provider-alias registry built by running `analyze_module` over every
module in order. -/
def buildAliases (mods : List ModuleM) : List (List Char × List (List Char)) :=
  mods.foldl
    (fun acc m => (extract_provider_aliases m.dir).foldl
      (fun acc2 a => addAlias a m.name acc2) acc)
    []

/-- The aggregation state after `analyze_module` has visited every module of
the universe once. -/
def aggregate (mods : List ModuleM) : TFState :=
  { all_modules := mods.map ModuleM.name
  , dependencies := mods.map fun m => (m.name, analyze_module_deps m)
  , provider_aliases := buildAliases mods }

/-! ### Report generation -/

/-- `generate_output`, as the list of report lines it writes: lines are
accumulated exactly as the source appends them. -/
def generate_output (st : TFState) : List (List Char) :=
  ((sortedSet (keysOf st.provider_aliases)).foldl
    (fun acc al =>
      (acc ++ [[], chars "PROVIDER " ++ al ++ [':']]) ++
        (sortedSet (lookupSet al st.provider_aliases)).map (fun module => chars "- " ++ module))
    ((sortedSet st.all_modules).foldl
      (fun acc module =>
        let deps := sortedSet (lookupSet module st.dependencies)
        if deps = [] then acc ++ [chars "- " ++ module]
        else acc ++ [chars "- " ++ module ++ chars " (depends_on: " ++ joinWith (chars ", ") deps ++ chars ")"])
      [chars "/*", chars "MODULES:"]))
  ++ [chars "*/"]

/-! ### The run pipeline -/

/-- The external inputs of one run: whether `extract_modules_dir` resolved a
root, the root directory's entries (`none` when the path is missing or not a
directory), and whether writing the report file fails. -/
structure Env where
  resolvedRoot : Bool
  rootEntries : Option (List Entry)
  writeFails : Bool
deriving DecidableEq

/-- Observable outcome of a run: the process exit status and the report file
content that was written, if any. -/
structure RunResult where
  exitCode : Nat
  report : Option (List Char)
deriving DecidableEq

/-- `scan_modules`: the sorted names of the non-hidden subdirectories of the
root; an invalid root yields the empty list (after an error message). -/
def scan_modules (root : Option (List Entry)) : List (List Char) :=
  match root with
  | none => []
  | some items =>
    sortStrs ((items.filter fun e => e.isDir && !(startsDot e.name)).map Entry.name)

/-- Directory contents for a scanned module name. -/
def dirFor (entries : List Entry) (n : List Char) : ModuleDirX :=
  match entries.find? fun e => decide (e.name = n) with
  | some e => e.dir
  | none => ⟨[]⟩

/-- `run`: resolve the root (abort with status 1 on failure), scan modules
(abort with status 1 when none), aggregate every module, generate the report
(a write failure loses the file but not the zero exit status). -/
def run (env : Env) : RunResult :=
  if env.resolvedRoot = false then ⟨1, none⟩
  else
    let modules := scan_modules env.rootEntries
    if modules = [] then ⟨1, none⟩
    else
      let entries := env.rootEntries.getD []
      let mods := modules.map fun n => ModuleM.mk n (dirFor entries n)
      let st := aggregate mods
      ⟨0, if env.writeFails then none else some (joinWith ['\n'] (generate_output st))⟩

/-! ### Facts about sorting and sets -/

theorem sorted_sortStrs (l : List (List Char)) : List.Sorted lexR (sortStrs l) :=
  List.sorted_insertionSort lexR l

theorem mem_sortStrs {x : List Char} {l : List (List Char)} :
    x ∈ sortStrs l ↔ x ∈ l :=
  (List.perm_insertionSort lexR l).mem_iff

theorem sorted_sortedSet (l : List (List Char)) : List.Sorted lexR (sortedSet l) :=
  sorted_sortStrs _

theorem mem_sortedSet {x : List Char} {l : List (List Char)} :
    x ∈ sortedSet l ↔ x ∈ l := by
  unfold sortedSet
  rw [mem_sortStrs, List.mem_dedup]

theorem nodup_sortedSet (l : List (List Char)) : (sortedSet l).Nodup :=
  (List.perm_insertionSort lexR l.dedup).nodup_iff.2 (List.nodup_dedup l)

theorem sortedSet_congr {a b : List (List Char)} (h : ∀ x, x ∈ a ↔ x ∈ b) :
    sortedSet a = sortedSet b := by
  refine List.eq_of_perm_of_sorted ?_ (sorted_sortedSet a) (sorted_sortedSet b)
  have h1 : a.dedup.Perm b.dedup :=
    (List.perm_ext_iff_of_nodup (List.nodup_dedup a) (List.nodup_dedup b)).2
      (by simpa [List.mem_dedup] using h)
  exact ((List.perm_insertionSort lexR a.dedup).trans h1).trans
    (List.perm_insertionSort lexR b.dedup).symm

/-- Occurrence count of an element in a list. -/
def countOcc (x : List Char) : List (List Char) → Nat
  | [] => 0
  | y :: ys => (if y = x then 1 else 0) + countOcc x ys

theorem countOcc_eq_zero {x : List Char} : ∀ {l : List (List Char)},
    x ∉ l → countOcc x l = 0
  | [], _ => rfl
  | y :: ys, hx => by
    have hyx : y ≠ x := fun h => hx (h ▸ List.mem_cons_self y ys)
    have hys : x ∉ ys := fun h => hx (List.mem_cons_of_mem y h)
    simp [countOcc, hyx, countOcc_eq_zero hys]

theorem countOcc_eq_one {x : List Char} : ∀ {l : List (List Char)},
    l.Nodup → x ∈ l → countOcc x l = 1
  | [], _, hx => absurd hx (List.not_mem_nil x)
  | y :: ys, hnd, hx => by
    have hnd2 := List.nodup_cons.mp hnd
    rcases List.mem_cons.mp hx with h | h
    · subst h
      simp [countOcc, countOcc_eq_zero hnd2.1]
    · have hyx : y ≠ x := fun hyx => hnd2.1 (hyx ▸ h)
      simp [countOcc, hyx, countOcc_eq_one hnd2.2 h]

theorem mem_catMap {g : α → List β} {x : β} : ∀ {l : List α},
    x ∈ catMap g l ↔ ∃ a ∈ l, x ∈ g a
  | [] => by simp [catMap]
  | a :: as => by
    simp [catMap, List.mem_append, mem_catMap (l := as)]

theorem foldl_snoc (g : α → List β) : ∀ (l : List α) (init : List β),
    l.foldl (fun acc x => acc ++ g x) init = init ++ catMap g l
  | [], init => by simp [catMap]
  | x :: xs, init => by
    simp [List.foldl_cons, foldl_snoc g xs, catMap, List.append_assoc]

/-! ### Structure of the generated report -/

/-- The MODULES-section line for one module: `- {module}` when its dependency
set is empty, `- {module} (depends_on: {sorted comma-joined list})` otherwise. -/
def moduleLine (st : TFState) (module : List Char) : List Char :=
  let deps := sortedSet (lookupSet module st.dependencies)
  if deps = [] then chars "- " ++ module
  else chars "- " ++ module ++ chars " (depends_on: " ++ joinWith (chars ", ") deps ++ chars ")"

/-- The lines of one PROVIDER section: a blank line, a `PROVIDER {alias}:`
header, and one `- {module}` line per declaring module in sorted order. -/
def providerSection (st : TFState) (al : List Char) : List (List Char) :=
  [[], chars "PROVIDER " ++ al ++ [':']] ++
    (sortedSet (lookupSet al st.provider_aliases)).map (fun module => chars "- " ++ module)

theorem catMap_singleton (f : α → β) : ∀ l : List α,
    catMap (fun x => [f x]) l = l.map f
  | [] => rfl
  | x :: xs => by simp [catMap, catMap_singleton f xs]

/-- The report is the opening marker, the `MODULES:` header, one line per
module of the (deduplicated, sorted) universe, the provider sections in
sorted alias order, and the closing marker. -/
theorem generate_output_structure (st : TFState) :
    generate_output st =
      [chars "/*", chars "MODULES:"]
        ++ (sortedSet st.all_modules).map (moduleLine st)
        ++ catMap (providerSection st) (sortedSet (keysOf st.provider_aliases))
        ++ [chars "*/"] := by
  unfold generate_output
  have h2 : (sortedSet st.all_modules).foldl
      (fun acc module =>
        let deps := sortedSet (lookupSet module st.dependencies)
        if deps = [] then acc ++ [chars "- " ++ module]
        else acc ++ [chars "- " ++ module ++ chars " (depends_on: " ++ joinWith (chars ", ") deps ++ chars ")"])
      [chars "/*", chars "MODULES:"] =
      [chars "/*", chars "MODULES:"] ++ (sortedSet st.all_modules).map (moduleLine st) := by
    rw [← catMap_singleton (moduleLine st), ← foldl_snoc]
    apply List.foldl_ext
    intro acc module _
    unfold moduleLine
    by_cases h : sortedSet (lookupSet module st.dependencies) = [] <;> simp [h]
  have h3 : ∀ init : List (List Char),
      (sortedSet (keysOf st.provider_aliases)).foldl
        (fun acc al =>
          (acc ++ [[], chars "PROVIDER " ++ al ++ [':']]) ++
            (sortedSet (lookupSet al st.provider_aliases)).map (fun module => chars "- " ++ module))
        init =
      init ++ catMap (providerSection st) (sortedSet (keysOf st.provider_aliases)) := by
    intro init
    rw [← foldl_snoc]
    apply List.foldl_ext
    intro acc al _
    simp [providerSection, List.append_assoc]
  rw [h2, h3]

/-! ### Lookup lemmas -/

theorem lookupSet_eq_nil_of_not_mem_keys {k : List Char} :
    ∀ {d : List (List Char × List (List Char))}, k ∉ keysOf d → lookupSet k d = []
  | [], _ => rfl
  | (k2, v) :: rest, h => by
    have hk2 : k2 ≠ k := by
      intro he
      exact h (he ▸ List.mem_cons_self k2 (keysOf rest))
    simp only [lookupSet, if_neg hk2]
    exact lookupSet_eq_nil_of_not_mem_keys fun hm => h (List.mem_cons_of_mem _ hm)

/-! ### Membership-level equality of states -/

/-- Boolean test that two lists have the same members (two Python sets with
possibly different iteration orders are equal). -/
def memEqB (a b : List (List Char)) : Bool :=
  a.all (fun x => decide (x ∈ b)) && b.all (fun x => decide (x ∈ a))

/-- Two association lists represent the same map of sets: same key sets, and
the same value set at each key. -/
def mapMemEq (d1 d2 : List (List Char × List (List Char))) : Prop :=
  memEqB (keysOf d1) (keysOf d2) = true ∧
  (keysOf d1).all (fun k => memEqB (lookupSet k d1) (lookupSet k d2)) = true

/-- Two aggregation states carry the same module universe, dependency map and
alias registry up to set membership. -/
def SameState (s1 s2 : TFState) : Prop :=
  memEqB s1.all_modules s2.all_modules = true ∧
  mapMemEq s1.dependencies s2.dependencies ∧
  mapMemEq s1.provider_aliases s2.provider_aliases

instance (d1 d2 : List (List Char × List (List Char))) : Decidable (mapMemEq d1 d2) := by
  unfold mapMemEq
  infer_instance

instance (s1 s2 : TFState) : Decidable (SameState s1 s2) := by
  unfold SameState
  infer_instance

theorem memEqB_iff {a b : List (List Char)} (h : memEqB a b = true) :
    ∀ x, x ∈ a ↔ x ∈ b := by
  unfold memEqB at h
  rw [Bool.and_eq_true, List.all_eq_true, List.all_eq_true] at h
  intro x
  constructor
  · intro hx
    simpa using h.1 x hx
  · intro hx
    simpa using h.2 x hx

theorem mapMemEq_lookup {d1 d2 : List (List Char × List (List Char))}
    (h : mapMemEq d1 d2) (k : List Char) :
    ∀ x, x ∈ lookupSet k d1 ↔ x ∈ lookupSet k d2 := by
  by_cases hk : k ∈ keysOf d1
  · have h2 := h.2
    rw [List.all_eq_true] at h2
    have h3 := h2 k hk
    exact memEqB_iff (by simpa using h3)
  · have hk2 : k ∉ keysOf d2 := fun hm => hk ((memEqB_iff h.1 k).2 hm)
    rw [lookupSet_eq_nil_of_not_mem_keys hk, lookupSet_eq_nil_of_not_mem_keys hk2]
    intro x
    exact Iff.rfl

/-! ### Alias-registry lemmas -/

theorem mem_lookupSet_addAlias {x k a m : List Char} :
    ∀ {acc : List (List Char × List (List Char))},
      x ∈ lookupSet k (addAlias a m acc) → x ∈ lookupSet k acc ∨ x = m
  | [], h => by
    by_cases hk : a = k <;> simp [addAlias, lookupSet, hk] at h <;> simp [h]
  | (k2, v) :: rest, h => by
    by_cases hk2 : k2 = a
    · subst hk2
      simp only [addAlias, if_pos rfl, lookupSet] at h
      by_cases hk : k2 = k
      · rw [if_pos hk] at h
        rw [lookupSet, if_pos hk]
        rcases List.mem_append.mp h with h2 | h2
        · exact Or.inl h2
        · simp at h2
          exact Or.inr h2
      · rw [if_neg hk] at h
        rw [lookupSet, if_neg hk]
        exact Or.inl h
    · simp only [addAlias, if_neg hk2, lookupSet] at h
      by_cases hk : k2 = k
      · rw [if_pos hk] at h
        rw [lookupSet, if_pos hk]
        exact Or.inl h
      · rw [if_neg hk] at h
        rw [lookupSet, if_neg hk]
        exact mem_lookupSet_addAlias h

theorem mem_lookupSet_foldl_addAlias {x k m : List Char} :
    ∀ (as : List (List Char)) {acc : List (List Char × List (List Char))},
      x ∈ lookupSet k (as.foldl (fun acc2 a => addAlias a m acc2) acc) →
      x ∈ lookupSet k acc ∨ x = m
  | [], _, h => Or.inl h
  | a :: as, acc, h => by
    rcases mem_lookupSet_foldl_addAlias as h with h2 | h2
    · exact mem_lookupSet_addAlias h2
    · exact Or.inr h2

theorem mem_lookupSet_buildAliases_aux {x k : List Char} :
    ∀ (mods : List ModuleM) (acc : List (List Char × List (List Char))),
      x ∈ lookupSet k (mods.foldl
        (fun acc2 m => (extract_provider_aliases m.dir).foldl
          (fun acc3 a => addAlias a m.name acc3) acc2) acc) →
      x ∈ lookupSet k acc ∨ x ∈ mods.map ModuleM.name
  | [], _, h => Or.inl h
  | m :: mods, acc, h => by
    rcases mem_lookupSet_buildAliases_aux mods _ h with h2 | h2
    · rcases mem_lookupSet_foldl_addAlias _ h2 with h3 | h3
      · exact Or.inl h3
      · exact Or.inr (by simp [h3])
    · exact Or.inr (List.mem_cons_of_mem _ h2)

/-- Every module recorded in any alias's declaring set was one of the visited
modules. -/
theorem mem_buildAliases {x k : List Char} {mods : List ModuleM}
    (h : x ∈ lookupSet k (buildAliases mods)) : x ∈ mods.map ModuleM.name := by
  rcases mem_lookupSet_buildAliases_aux mods [] h with h2 | h2
  · simp [lookupSet] at h2
  · exact h2

/-! ### Comment-stripper lemmas -/

/-- Text containing no `/\*` is copied verbatim up to a following comment
opener (whose first character `/` cannot complete an opener with the last
character of the prefix). -/
theorem sbAux_copy : ∀ pre tail2 : List Char, containsSub (chars "/*") pre = false →
    sbAux none (pre ++ '/' :: tail2) = pre ++ sbAux none ('/' :: tail2)
  | [], _, _ => rfl
  | [c], tail2, _ => by
    show sbAux none (c :: '/' :: tail2) = c :: sbAux none ('/' :: tail2)
    rw [sbAux]
    simp
  | c :: d :: pre3, tail2, h => by
    simp only [containsSub, Bool.or_eq_false_iff] at h
    have h2 : containsSub (chars "/*") (d :: pre3) = false := by
      simp only [containsSub, Bool.or_eq_false_iff]
      exact h.2
    have h1 : ¬(c = '/' ∧ d = '*') := by
      intro hcd
      rcases hcd with ⟨hc, hd⟩
      subst hc
      subst hd
      have h4 := h.1
      rw [show chars "/*" = ['/', '*'] from rfl] at h4
      simp [isPre] at h4
    show sbAux none (c :: d :: (pre3 ++ '/' :: tail2)) =
      c :: d :: pre3 ++ sbAux none ('/' :: tail2)
    rw [sbAux, if_neg h1]
    have h3 := sbAux_copy (d :: pre3) tail2 h2
    simp only [List.cons_append] at h3 ⊢
    rw [h3]

/-- Inside a comment whose body contains no `\*/`, everything up to and
including the closing marker is dropped, whatever has been consumed so far. -/
theorem sbAux_close : ∀ (mid p post : List Char), containsSub (chars "*/") mid = false →
    sbAux (some p) (mid ++ '*' :: '/' :: post) = sbAux none post
  | [], p, post, _ => by
    show sbAux (some p) ('*' :: '/' :: post) = sbAux none post
    rw [sbAux]
    simp
  | [c], p, post, _ => by
    show sbAux (some p) (c :: '*' :: '/' :: post) = sbAux none post
    rw [sbAux]
    have h1 : ¬(c = '*' ∧ '*' = '/') := by simp
    rw [if_neg h1]
    exact sbAux_close [] (c :: p) post rfl
  | c :: d :: mid3, p, post, h => by
    simp only [containsSub, Bool.or_eq_false_iff] at h
    have h2 : containsSub (chars "*/") (d :: mid3) = false := by
      simp only [containsSub, Bool.or_eq_false_iff]
      exact h.2
    have h1 : ¬(c = '*' ∧ d = '/') := by
      intro hcd
      rcases hcd with ⟨hc, hd⟩
      subst hc
      subst hd
      have h4 := h.1
      rw [show chars "*/" = ['*', '/'] from rfl] at h4
      simp [isPre] at h4
    show sbAux (some p) (c :: d :: (mid3 ++ '*' :: '/' :: post)) = sbAux none post
    rw [sbAux, if_neg h1]
    exact sbAux_close (d :: mid3) (c :: p) post h2

/-- A block comment whose opener is the first `/\*` of the text and whose body
contains no `\*/` is removed entirely, body included. -/
theorem stripBlock_first_comment (pre mid post : List Char)
    (hpre : containsSub (chars "/*") pre = false)
    (hmid : containsSub (chars "*/") mid = false) :
    stripBlockComments (pre ++ chars "/*" ++ mid ++ chars "*/" ++ post) =
      pre ++ sbAux none post := by
  unfold stripBlockComments
  have hassoc : pre ++ chars "/*" ++ mid ++ chars "*/" ++ post =
      pre ++ '/' :: ('*' :: (mid ++ '*' :: '/' :: post)) := by
    show pre ++ ['/', '*'] ++ mid ++ ['*', '/'] ++ post =
      pre ++ '/' :: ('*' :: (mid ++ '*' :: '/' :: post))
    simp [List.append_assoc]
  rw [hassoc, sbAux_copy pre _ hpre]
  congr 1
  show sbAux none ('/' :: '*' :: (mid ++ '*' :: '/' :: post)) = sbAux none post
  rw [sbAux]
  simp only [and_self, if_true, reduceIte]
  exact sbAux_close mid _ post hmid

/-! ### Inference shape lemma -/

theorem infer_module_name_shape {n dep : List Char}
    (h : infer_module_name n = some dep) :
    dep = chars "inner_vpc" ∨ dep = chars "outer_vpc" ∨
      ∃ p, 1 ≤ p.length ∧ dep = p ++ chars "_vpc" := by
  unfold infer_module_name at h
  by_cases h1 : containsSub (chars "_vpc") n = true
  · by_cases h2 : containsSub (chars "inner") n = true
    · simp [h1, h2] at h
      exact Or.inl h.symm
    · by_cases h3 : containsSub (chars "outer") n = true
      · simp [h1, h2, h3] at h
        exact Or.inr (Or.inl h.symm)
      · by_cases h4 : beforeFirst (chars "_vpc") n = []
        · simp [h1, h2, h3, h4] at h
        · simp [h1, h2, h3, h4] at h
          refine Or.inr (Or.inr ⟨beforeFirst (chars "_vpc") n, ?_, h.symm⟩)
          cases hb : beforeFirst (chars "_vpc") n with
          | nil => exact absurd hb h4
          | cons x xs => simp
  · by_cases h2 : containsSub (chars "inner") n = true
    · simp [h1, h2] at h
      exact Or.inl h.symm
    · by_cases h3 : containsSub (chars "outer") n = true
      · simp [h1, h2, h3] at h
        exact Or.inr (Or.inl h.symm)
      · simp [h1, h2, h3] at h

/-! ## Claim theorems -/

/-- The naming-pattern precedence rules exactly as the spec words them,
transcribed for comparison with the source's `infer_module_name`: if the
local name contains `_vpc` then `inner` gives `inner_vpc`, else `outer`
gives `outer_vpc`, else a non-empty prefix before the first `_vpc` gives
`{prefix}_vpc` and an empty prefix gives nothing; else `inner` gives
`inner_vpc`; else `outer` gives `outer_vpc`; else nothing. -/
def inferSpecRule (name : List Char) : Option (List Char) :=
  if containsSub (chars "_vpc") name then
    if containsSub (chars "inner") name then some (chars "inner_vpc")
    else if containsSub (chars "outer") name then some (chars "outer_vpc")
    else if beforeFirst (chars "_vpc") name = [] then none
    else some (beforeFirst (chars "_vpc") name ++ chars "_vpc")
  else if containsSub (chars "inner") name then some (chars "inner_vpc")
  else if containsSub (chars "outer") name then some (chars "outer_vpc")
  else none

/-- Claim C1: the implicit-dependency inference follows the spec's precedence
rules exactly on every local name, and in particular `app_inner_vpc_lookup`
infers `inner_vpc`, `foo_vpc` infers `foo_vpc`, `_vpc` infers nothing, and
`outer_net` infers `outer_vpc`. -/
theorem c1_implicit_inference_precedence :
    (∀ name : List Char, infer_module_name name = inferSpecRule name)
    ∧ infer_module_name (chars "app_inner_vpc_lookup") = some (chars "inner_vpc")
    ∧ infer_module_name (chars "foo_vpc") = some (chars "foo_vpc")
    ∧ infer_module_name (chars "_vpc") = none
    ∧ infer_module_name (chars "outer_net") = some (chars "outer_vpc") :=
  ⟨fun _ => rfl, by decide, by decide, by decide, by decide⟩

/-- Claim C2: after aggregation no module's dependency set contains the
module's own name, and hence the sorted dependency list rendered into its
`depends_on` clause never contains the module itself (stated as occurrence
counts being zero). -/
theorem c2_no_self_dependency (mods : List ModuleM) (name : List Char) :
    countOcc name (lookupSet name (aggregate mods).dependencies) = 0 ∧
    countOcc name (sortedSet (lookupSet name (aggregate mods).dependencies)) = 0 := by
  have hmem : name ∉ lookupSet name (aggregate mods).dependencies := by
    show name ∉ lookupSet name (mods.map fun m => (m.name, analyze_module_deps m))
    induction mods with
    | nil => simp [lookupSet]
    | cons m rest ih =>
      simp only [List.map_cons, lookupSet]
      by_cases h : m.name = name
      · rw [if_pos h]
        intro hmem2
        have h2 := (List.mem_filter.mp hmem2).2
        rw [h] at h2
        simp at h2
      · rw [if_neg h]
        exact ih
  exact ⟨countOcc_eq_zero hmem, countOcc_eq_zero fun h => hmem (mem_sortedSet.mp h)⟩

/-- Claim C3: the report is exactly the `/*` line, the `MODULES:` line, one
line per module of the sorted deduplicated universe (with or without a
`depends_on` clause), the provider sections in sorted alias order (blank
line, `PROVIDER {alias}:` header, one `- {module}` line per declarer in
sorted order), and the closing `*/` line; all rendered lists are sorted and
every scanned module appears exactly once in the MODULES section. -/
theorem c3_report_structure (st : TFState) :
    (generate_output st =
      [chars "/*", chars "MODULES:"]
        ++ (sortedSet st.all_modules).map (moduleLine st)
        ++ catMap (providerSection st) (sortedSet (keysOf st.provider_aliases))
        ++ [chars "*/"])
    ∧ List.Sorted lexR (sortedSet st.all_modules)
    ∧ List.Sorted lexR (sortedSet (keysOf st.provider_aliases))
    ∧ (∀ m, List.Sorted lexR (sortedSet (lookupSet m st.dependencies)))
    ∧ (∀ a, List.Sorted lexR (sortedSet (lookupSet a st.provider_aliases)))
    ∧ (∀ m, m ∈ st.all_modules → countOcc m (sortedSet st.all_modules) = 1) :=
  ⟨generate_output_structure st, sorted_sortedSet _, sorted_sortedSet _,
   fun _ => sorted_sortedSet _, fun _ => sorted_sortedSet _,
   fun _ hm => countOcc_eq_one (nodup_sortedSet _) (mem_sortedSet.mpr hm)⟩

theorem c3_report_structure_witness :
    chars "a" ∈ (TFState.mk [chars "a"] [] []).all_modules ∧
    countOcc (chars "a") (sortedSet (TFState.mk [chars "a"] [] []).all_modules) = 1 :=
  ⟨by decide, (c3_report_structure (TFState.mk [chars "a"] [] [])).2.2.2.2.2 (chars "a") (by decide)⟩

/-- Claim C4: the rendered lines (and hence the joined report content) are a
function of the aggregation state's membership content alone: two states
agreeing up to set membership produce byte-identical output, whatever order
their sets were filled in. -/
theorem c4_output_determined_by_state (s1 s2 : TFState) (h : SameState s1 s2) :
    generate_output s1 = generate_output s2 ∧
    joinWith ['\n'] (generate_output s1) = joinWith ['\n'] (generate_output s2) := by
  have hmods : sortedSet s1.all_modules = sortedSet s2.all_modules :=
    sortedSet_congr (memEqB_iff h.1)
  have hml : moduleLine s1 = moduleLine s2 := by
    funext m
    unfold moduleLine
    rw [sortedSet_congr (mapMemEq_lookup h.2.1 m)]
  have hkeys : sortedSet (keysOf s1.provider_aliases) =
      sortedSet (keysOf s2.provider_aliases) :=
    sortedSet_congr (memEqB_iff h.2.2.1)
  have hps : providerSection s1 = providerSection s2 := by
    funext al
    unfold providerSection
    rw [sortedSet_congr (mapMemEq_lookup h.2.2 al)]
  have heq : generate_output s1 = generate_output s2 := by
    rw [generate_output_structure s1, generate_output_structure s2, hmods, hml, hkeys, hps]
  exact ⟨heq, by rw [heq]⟩

/-- A state whose sets are listed in one order. -/
def c4StateA : TFState :=
  ⟨[chars "a", chars "b"], [(chars "a", [chars "b", chars "c"])],
   [(chars "p", [chars "a", chars "b"])]⟩

/-- The same state with every set listed in another order (with a repeat). -/
def c4StateB : TFState :=
  ⟨[chars "b", chars "a"], [(chars "a", [chars "c", chars "b", chars "c"])],
   [(chars "p", [chars "b", chars "a"])]⟩

theorem c4_output_determined_by_state_witness :
    SameState c4StateA c4StateB ∧ generate_output c4StateA = generate_output c4StateB :=
  ⟨by decide, (c4_output_determined_by_state c4StateA c4StateB (by decide)).1⟩

/-- A module directory whose only module reference sits inside a block
comment. -/
def c5Dir : ModuleDirX := ⟨[(chars "main.tf", chars "/* module \"x\" \x7b */")]⟩

/-- Claim C5: comments are stripped before pattern extraction: the body of a
block comment contributes nothing (dropping it leaves the stripped text
unchanged), a `module \"x\" \x7b` inside a block comment yields no explicit
dependency, and block comments (multi-line included), `//` comments and `#`
comments are all removed to end of line. -/
theorem c5_comment_stripping_before_extraction :
    (∀ pre mid post : List Char,
        containsSub (chars "/*") pre = false →
        containsSub (chars "*/") mid = false →
        remove_comments (pre ++ chars "/*" ++ mid ++ chars "*/" ++ post) =
          remove_comments (pre ++ chars "/*" ++ chars "*/" ++ post))
    ∧ findAll matchModuleRef (remove_comments
        (chars "module \"a\" \x7b /* module \"x\" \x7b */ module \"b\" \x7b")) =
        [chars "a", chars "b"]
    ∧ extract_explicit_dependencies c5Dir = []
    ∧ remove_comments
        (chars "keep /* multi\nline\ncomment */ one // two\nthree # four\nfive") =
        chars "keep  one \nthree \nfive" := by
  refine ⟨fun pre mid post hpre hmid => ?_, by decide, by decide, by decide⟩
  unfold remove_comments
  have h1 := stripBlock_first_comment pre mid post hpre hmid
  have h2 : stripBlockComments (pre ++ chars "/*" ++ chars "*/" ++ post) =
      pre ++ sbAux none post := by
    have h3 := stripBlock_first_comment pre [] post hpre rfl
    simpa using h3
  rw [h1, h2]

theorem c5_comment_stripping_before_extraction_witness :
    (containsSub (chars "/*") (chars "x = 1 ") = false ∧
      containsSub (chars "*/") (chars " module \"q\" \x7b ") = false) ∧
    remove_comments (chars "x = 1 " ++ chars "/*" ++ chars " module \"q\" \x7b " ++
        chars "*/" ++ chars "\ny") =
      remove_comments (chars "x = 1 " ++ chars "/*" ++ chars "*/" ++ chars "\ny") :=
  ⟨⟨by decide, by decide⟩,
   c5_comment_stripping_before_extraction.1 (chars "x = 1 ") (chars " module \"q\" \x7b ")
     (chars "\ny") (by decide) (by decide)⟩

/-- Claim C6: the exit status is 0 exactly when a root was resolved and the
scan found at least one module; it is always 0 or 1; and a report-write
failure leaves the exit status untouched (the run still exits 0, only the
file is lost). -/
theorem c6_exit_status (env : Env) :
    ((run env).exitCode = 0 ↔ (env.resolvedRoot = true ∧ scan_modules env.rootEntries ≠ []))
    ∧ (∀ b, (run { env with writeFails := b }).exitCode = (run env).exitCode)
    ∧ ((run env).exitCode = 0 ∨ (run env).exitCode = 1)
    ∧ (env.resolvedRoot = true → scan_modules env.rootEntries ≠ [] →
        env.writeFails = true → (run env).exitCode = 0 ∧ (run env).report = none) := by
  obtain ⟨r, entries, w⟩ := env
  cases r with
  | false => simp [run]
  | true =>
    by_cases hs : scan_modules entries = []
    · simp [run, hs]
    · simp [run, hs]

/-- An environment with one module and a failing report write. -/
def c6Env : Env := ⟨true, some [⟨chars "m", true, ⟨[]⟩⟩], true⟩

theorem c6_exit_status_witness :
    (c6Env.resolvedRoot = true ∧ scan_modules c6Env.rootEntries ≠ [] ∧
      c6Env.writeFails = true) ∧
    ((run c6Env).exitCode = 0 ∧ (run c6Env).report = none) :=
  ⟨⟨rfl, by decide, rfl⟩, (c6_exit_status c6Env).2.2.2 rfl (by decide) rfl⟩

/-- Claim C7: the scanner returns the lexicographically sorted names of
exactly the non-hidden directory entries of the root (files and hidden
entries appear nowhere), and an invalid root aborts the run with a non-zero
status and no report. -/
theorem c7_scan_modules :
    (∀ entries : List Entry, List.Sorted lexR (scan_modules (some entries)))
    ∧ (∀ (entries : List Entry) (n : List Char),
        n ∈ scan_modules (some entries) ↔
          ∃ e, e ∈ entries ∧ e.name = n ∧ e.isDir = true ∧ startsDot n = false)
    ∧ (∀ env : Env, env.rootEntries = none →
        (run env).exitCode = 1 ∧ (run env).report = none) := by
  refine ⟨fun entries => sorted_sortStrs _, fun entries n => ?_, fun env h => ?_⟩
  · unfold scan_modules
    rw [mem_sortStrs]
    simp only [List.mem_map, List.mem_filter, Bool.and_eq_true, Bool.not_eq_true']
    constructor
    · rintro ⟨e, ⟨he, hdir, hdot⟩, rfl⟩
      exact ⟨e, he, rfl, hdir, hdot⟩
    · rintro ⟨e, he, rfl, hdir, hdot⟩
      exact ⟨e, ⟨he, hdir, hdot⟩, rfl⟩
  · obtain ⟨r, entries, w⟩ := env
    simp only at h
    subst h
    cases r <;> simp [run, scan_modules]

theorem c7_scan_modules_witness :
    ((Env.mk true none false).rootEntries = none) ∧
    ((run (Env.mk true none false)).exitCode = 1 ∧
      (run (Env.mk true none false)).report = none) :=
  ⟨rfl, c7_scan_modules.2.2 (Env.mk true none false) rfl⟩

/-- The root directory of the spec's §8 two-module scenario: module `a`
declares `module "b"` and a data block locally named `inner_db`; module `b`
is empty. -/
def c8Entries : List Entry :=
  [ ⟨chars "a", true, ⟨[(chars "main.tf",
      chars "module \"b\" \x7b\x7d\ndata \"aws_db\" \"inner_db\" \x7b\x7d")]⟩⟩
  , ⟨chars "b", true, ⟨[]⟩⟩ ]

/-- Environment running that scenario. -/
def c8Env : Env := ⟨true, some c8Entries, false⟩

/-- The modules the run analyzes for that scenario. -/
def c8Mods : List ModuleM :=
  (scan_modules c8Env.rootEntries).map fun n => ModuleM.mk n (dirFor c8Entries n)

/-- Claim C8: inferred implicit names are included verbatim with no existence
check: the scenario's report reads `- a (depends_on: b, inner_vpc)` then
`- b`, `inner_vpc` is recorded as a dependency of `a`, yet `inner_vpc` is not
a scanned module and gets no MODULES entry of its own. -/
theorem c8_unvalidated_inferred_names :
    run c8Env = ⟨0, some (chars "/*\nMODULES:\n- a (depends_on: b, inner_vpc)\n- b\n*/")⟩
    ∧ chars "inner_vpc" ∈ lookupSet (chars "a") (aggregate c8Mods).dependencies
    ∧ countOcc (chars "inner_vpc") (scan_modules c8Env.rootEntries) = 0
    ∧ countOcc (chars "inner_vpc") ((aggregate c8Mods).all_modules) = 0 :=
  ⟨by decide, by decide, by decide, by decide⟩

/-- Claim C9: every name produced by the implicit-dependency extractor ends in
`_vpc`: it is `inner_vpc`, `outer_vpc`, or `{prefix}_vpc` for a non-empty
prefix, so it is never empty and never of another shape. -/
theorem c9_implicit_dependency_shape (d : ModuleDirX) (dep : List Char)
    (h : dep ∈ extract_implicit_dependencies d) :
    (∃ p, dep = p ++ chars "_vpc") ∧
    (dep = chars "inner_vpc" ∨ dep = chars "outer_vpc" ∨
      ∃ p, 1 ≤ p.length ∧ dep = p ++ chars "_vpc") := by
  unfold extract_implicit_dependencies at h
  rw [mem_catMap] at h
  obtain ⟨f, _, hmem⟩ := h
  obtain ⟨n, _, hinf⟩ := List.mem_filterMap.mp hmem
  have hshape := infer_module_name_shape hinf
  refine ⟨?_, hshape⟩
  rcases hshape with h1 | h1 | ⟨p, _, h1⟩
  · exact ⟨chars "inner", by rw [h1]; decide⟩
  · exact ⟨chars "outer", by rw [h1]; decide⟩
  · exact ⟨p, h1⟩

/-- A module directory with one data block locally named `inner_db`. -/
def c9Dir : ModuleDirX := ⟨[(chars "main.tf", chars "data \"t\" \"inner_db\" \x7b")]⟩

theorem c9_implicit_dependency_shape_witness :
    chars "inner_vpc" ∈ extract_implicit_dependencies c9Dir ∧
    (∃ p, chars "inner_vpc" = p ++ chars "_vpc") :=
  ⟨by decide, (c9_implicit_dependency_shape c9Dir (chars "inner_vpc") (by decide)).1⟩

/-- Claim C10: every module in any alias's declaring set is a scanned module
of the universe, and hence also a member of the sorted module list that the
MODULES section renders. -/
theorem c10_provider_modules_in_universe (mods : List ModuleM) (al x : List Char)
    (h : x ∈ lookupSet al (aggregate mods).provider_aliases) :
    x ∈ (aggregate mods).all_modules ∧ x ∈ sortedSet (aggregate mods).all_modules := by
  have h2 : x ∈ mods.map ModuleM.name := mem_buildAliases h
  exact ⟨h2, mem_sortedSet.mpr h2⟩

/-- A universe with one module declaring the alias `east`. -/
def c10Mods : List ModuleM :=
  [⟨chars "a", ⟨[(chars "provider.tf", chars "alias = \"east\"")]⟩⟩]

theorem c10_provider_modules_in_universe_witness :
    chars "a" ∈ lookupSet (chars "east") (aggregate c10Mods).provider_aliases ∧
    chars "a" ∈ (aggregate c10Mods).all_modules :=
  ⟨by decide,
   (c10_provider_modules_in_universe c10Mods (chars "east") (chars "a") (by decide)).1⟩
